import Mathlib

/-!
Verification of the Question Engine of the flashcard quiz `app.js`.

The source program is shallowly embedded: JavaScript numbers that hold
record ids are modelled as `Int`, JS strings as `String`, nullable values
as `Option`, the DOM option buttons as a list of `OptSlot` records, and all
module-level mutable variables as fields of an `Engine` state record.
`Math.random`-driven choices are modelled as explicit choice parameters:
`randInt n` is an index argument, and each call to `shuffle` receives a
tape assigning to every loop index `i` a value `j ≤ i`, which is exactly
the contract of `randInt(i + 1)`.
-/

set_option maxHeartbeats 1000000

/-- JS whitespace test used by `String.prototype.trim` / `parseInt`
(restricted to the common ASCII whitespace characters). -/
def jsWhitespaceChar (c : Char) : Bool :=
  c = ' ' || c = '\t' || c = '\n' || c = '\r'

/-- Model of `String.prototype.trim`: drop leading and trailing whitespace. -/
def jsTrim (s : String) : String :=
  ⟨((s.data.dropWhile jsWhitespaceChar).reverse.dropWhile jsWhitespaceChar).reverse⟩

/-- Value of a leading run of decimal digits; `none` when there is no digit.
Used to model `parseInt(_, 10)`. -/
def digitsVal (cs : List Char) : Option Nat :=
  let ds := cs.takeWhile (fun c => c.isDigit)
  if ds.isEmpty then none
  else some (ds.foldl (fun a c => a * 10 + (c.toNat - 48)) 0)

/-- Model of `parseInt(s, 10)`: skip whitespace, optional sign, longest digit
run; `none` models the `NaN` result (which fails `Number.isFinite`). -/
def parseIntJs (s : String) : Option Int :=
  let cs := s.data.dropWhile jsWhitespaceChar
  match cs with
  | '-' :: rest => (digitsVal rest).map (fun n => -(n : Int))
  | '+' :: rest => (digitsVal rest).map (fun n => (n : Int))
  | _ => (digitsVal cs).map (fun n => (n : Int))

/-- A JS number as far as the normalizer cares: either a finite value or a
non-finite one (`NaN`/`±Infinity`, the values rejected by `Number.isFinite`). -/
inductive JsNum : Type where
  | finite (n : Int)
  | nonFinite
deriving DecidableEq

/-- A raw record of `hsk.json` before normalization.  `idField`/`ID` hold the
`id`/`ID` properties (`none` models an absent/nullish property, otherwise the
result of the `Number(...)` coercion of the stored value); `TYPE` holds the
string form of the `TYPE` property when it is not nullish. -/
structure RawRecord : Type where
  idField : Option JsNum
  ID : Option JsNum
  TYPE : Option String
  VIETNAMESE : String
  GIANTHE : String
  PINYIN : String
  VD : String
deriving DecidableEq

/-- A normalized vocabulary entry (`GIANTHE` is the `"GIẢN THỂ"` field). -/
structure Entry : Type where
  id : Int
  TYPE : String
  VIETNAMESE : String
  GIANTHE : String
  PINYIN : String
  VD : String
deriving DecidableEq

/-- `normalizeData` body for one record at 0-based position `idx`:
`idRaw = it.id ?? it.ID ?? (idx+1)`, `id = Number(idRaw)` with fallback to
`idx+1` when not finite, and `TYPE = String(it.TYPE ?? "").trim()`. -/
def normalizeEntry (idx : Nat) (it : RawRecord) : Entry :=
  let idRaw : JsNum :=
    match it.idField with
    | some v => v
    | none =>
      match it.ID with
      | some v => v
      | none => JsNum.finite ((idx : Int) + 1)
  let idNum : Int :=
    match idRaw with
    | JsNum.finite n => n
    | JsNum.nonFinite => (idx : Int) + 1
  { id := idNum, TYPE := jsTrim (it.TYPE.getD ""),
    VIETNAMESE := it.VIETNAMESE, GIANTHE := it.GIANTHE,
    PINYIN := it.PINYIN, VD := it.VD }

/-- `normalizeData(raw)`: map each record, then keep entries with a finite id
and a truthy (non-empty) `TYPE`.  After the fallback the id is always finite,
so the surviving `filter` condition is the non-empty `TYPE`. -/
def normalizeData (raw : List RawRecord) : List Entry :=
  ((raw.enum).map (fun p => normalizeEntry p.1 p.2)).filter
    (fun it => it.TYPE ≠ "")

/-- `applyTypeFilter(typeArray)`: sanitize the labels, keep entries whose
`TYPE` is included in them, and fall back to the whole dataset (a copy,
`DATA.slice()`) when the strict filter is empty. -/
def applyTypeFilter (typeArray : List String) (data : List Entry) : List Entry :=
  let types := (typeArray.map jsTrim).filter (fun s => s ≠ "")
  let filtered := data.filter (fun item => item.TYPE ∈ types)
  if filtered.isEmpty then data else filtered

/-- Randomness tape for one `shuffle` call: at loop index `i` the source draws
`j = randInt(i + 1)`, a value in `[0, i]`. -/
def ShuffleTape : Type := (i : Nat) → Fin (i + 1)

/-- The all-zero tape (a legitimate possible sequence of `randInt` results). -/
def tape0 : ShuffleTape := fun i => ⟨0, Nat.succ_pos i⟩

/-- `[arr[i], arr[j]] = [arr[j], arr[i]]` on a list; out-of-range indices leave
the list unchanged (they never occur in the source's calls). -/
def listSwap {α : Type _} (l : List α) (i j : Nat) : List α :=
  if hi : i < l.length then
    if hj : j < l.length then
      (l.set i (l.get ⟨j, hj⟩)).set j (l.get ⟨i, hi⟩)
    else l
  else l

/-- The Fisher–Yates loop of `shuffle`: `for (i = len-1; i > 0; i--)` swap
position `i` with position `tape i ≤ i`. -/
def fyGo {α : Type _} (t : ShuffleTape) : List α → Nat → List α
  | l, 0 => l
  | l, i + 1 => fyGo t (listSwap l (i + 1) (t (i + 1)).val) i

/-- `shuffle(arr)` from the source, with the random draws supplied by `t`. -/
def jsShuffle {α : Type _} (t : ShuffleTape) (l : List α) : List α :=
  fyGo t l (l.length - 1)

theorem count_set_add {α : Type _} [DecidableEq α] :
    ∀ (l : List α) (n : Nat) (b x : α) (hn : n < l.length),
      (l.set n b).count x + (if l[n] = x then 1 else 0)
        = l.count x + (if b = x then 1 else 0)
  | [], n, b, x, hn => by simp at hn
  | a :: tl, 0, b, x, hn => by
      simp only [List.set_cons_zero, List.count_cons, beq_iff_eq,
        List.getElem_cons_zero]
      omega
  | a :: tl, n + 1, b, x, hn => by
      have ih := count_set_add tl n b x (by simpa using hn)
      simp only [List.set_cons_succ, List.count_cons, beq_iff_eq,
        List.getElem_cons_succ]
      omega

theorem set_set_swap_perm {α : Type _} [DecidableEq α] (l : List α) (i j : Nat)
    (hi : i < l.length) (hj : j < l.length) :
    ((l.set i l[j]).set j l[i]).Perm l := by
  have hj2 : j < (l.set i (l[j])).length := by simpa using hj
  refine List.perm_iff_count.mpr (fun x => ?_)
  have h1 := count_set_add l i (l[j]) x hi
  have h2 := count_set_add (l.set i l[j]) j (l[i]) x hj2
  have h3 : (l.set i l[j])[j] = l[j] := by
    rw [List.getElem_set]
    split <;> rfl
  rw [h3] at h2
  omega

theorem listSwap_perm {α : Type _} [DecidableEq α] (l : List α) (i j : Nat) :
    (listSwap l i j).Perm l := by
  unfold listSwap
  by_cases hi : i < l.length
  · by_cases hj : j < l.length
    · rw [dif_pos hi, dif_pos hj]
      exact set_set_swap_perm l i j hi hj
    · rw [dif_pos hi, dif_neg hj]
  · rw [dif_neg hi]

theorem fyGo_perm {α : Type _} [DecidableEq α] (t : ShuffleTape) :
    ∀ (n : Nat) (l : List α), (fyGo t l n).Perm l
  | 0, l => List.Perm.refl l
  | n + 1, l =>
    (fyGo_perm t n (listSwap l (n + 1) (t (n + 1)).val)).trans
      (listSwap_perm l (n + 1) (t (n + 1)).val)

theorem jsShuffle_perm {α : Type _} [DecidableEq α] (t : ShuffleTape)
    (l : List α) : (jsShuffle t l).Perm l :=
  fyGo_perm t (l.length - 1) l

/-- The distractor-collecting loop of `buildAnswerRecords`: walk the (already
shuffled) pool, stop at `need` picks, skip ids already in the `used` set,
otherwise push the entry and add its id. -/
def fillFrom (need : Nat) : List Entry → List Entry → List Int → List Entry × List Int
  | [], picks, used => (picks, used)
  | e :: rest, picks, used =>
    if need ≤ picks.length then (picks, used)
    else if e.id ∈ used then fillFrom need rest picks used
    else fillFrom need rest (picks ++ [e]) (e.id :: used)

/-- `buildAnswerRecords()`: seed with the correct entry, fill from the shuffled
Filtered View (ids ≠ correct id), fall back to the shuffled full dataset when
still short, and shuffle the final picks. -/
def buildAnswerRecords (need : Nat) (t1 t2 tf : ShuffleTape) (q : Entry)
    (filtered data : List Entry) : List Entry :=
  let pool1 := jsShuffle t1 (filtered.filter (fun it => it.id ≠ q.id))
  let r1 := fillFrom need pool1 [q] [q.id]
  let r2 :=
    if r1.1.length < need then
      fillFrom need (jsShuffle t2 (data.filter (fun it => it.id ≠ q.id))) r1.1 r1.2
    else r1
  jsShuffle tf r2.1

theorem applyTypeFilter_mem_data (ts : List String) (data : List Entry) :
    ∀ e ∈ applyTypeFilter ts data, e ∈ data := by
  intro e he
  simp only [applyTypeFilter] at he
  split at he
  · exact he
  · exact List.mem_of_mem_filter he

theorem fillFrom_spec (need : Nat) :
    ∀ (pool picks : List Entry) (used : List Int),
      picks.length ≤ need →
      (picks.map (fun e => e.id)).Nodup →
      (∀ x, x ∈ used ↔ x ∈ picks.map (fun e => e.id)) →
      (∃ rest, (fillFrom need pool picks used).1 = picks ++ rest)
      ∧ (∀ e ∈ (fillFrom need pool picks used).1, e ∈ picks ∨ e ∈ pool)
      ∧ ((fillFrom need pool picks used).1.map (fun e => e.id)).Nodup
      ∧ (∀ x, x ∈ (fillFrom need pool picks used).2
            ↔ x ∈ (fillFrom need pool picks used).1.map (fun e => e.id))
      ∧ (fillFrom need pool picks used).1.length
          = min need ((picks.map (fun e => e.id)
              ++ pool.map (fun e => e.id)).toFinset.card)
      ∧ (fillFrom need pool picks used).1.length ≤ need
  | [], picks, used, hlen, hnd, hiff => by
      refine ⟨⟨[], by simp [fillFrom]⟩, ?_, ?_, ?_, ?_, ?_⟩
      · intro e he
        exact Or.inl (by simpa [fillFrom] using he)
      · simpa [fillFrom] using hnd
      · simpa [fillFrom] using hiff
      · have hc : ((picks.map (fun e => e.id))
            ++ ([] : List Entry).map (fun e => e.id)).toFinset.card
            = picks.length := by
          simp [List.toFinset_card_of_nodup hnd]
        simp only [fillFrom, hc]
        exact (Nat.min_eq_right hlen).symm
      · simpa [fillFrom] using hlen
  | e :: rest, picks, used, hlen, hnd, hiff => by
      by_cases h1 : need ≤ picks.length
      · have hfe : fillFrom need (e :: rest) picks used = (picks, used) := by
          simp [fillFrom, h1]
        have hplen : picks.length = need := Nat.le_antisymm hlen h1
        rw [hfe]
        refine ⟨⟨[], by simp⟩, fun e' he' => Or.inl he', hnd, hiff, ?_, hlen⟩
        have hsub : (picks.map (fun e => e.id)).toFinset
            ⊆ ((picks.map (fun e => e.id))
                ++ ((e :: rest).map (fun e => e.id))).toFinset := by
          intro x hx
          rw [List.toFinset_append]
          exact Finset.mem_union_left _ hx
        have hcard : need ≤ ((picks.map (fun e => e.id))
            ++ ((e :: rest).map (fun e => e.id))).toFinset.card := by
          have h := Finset.card_le_card hsub
          rw [List.toFinset_card_of_nodup hnd, List.length_map, hplen] at h
          exact h
        rw [Nat.min_eq_left hcard, hplen]
      · by_cases h2 : e.id ∈ used
        · have hfe : fillFrom need (e :: rest) picks used
              = fillFrom need rest picks used := by
            simp [fillFrom, h1, h2]
          obtain ⟨hrest, hmem, hnd', hiff', hlength, hle⟩ :=
            fillFrom_spec need rest picks used hlen hnd hiff
          rw [hfe]
          refine ⟨hrest, ?_, hnd', hiff', ?_, hle⟩
          · intro e' he'
            exact (hmem e' he').imp id (fun h => List.mem_cons_of_mem _ h)
          · have hidmem : e.id ∈ picks.map (fun e => e.id) := (hiff e.id).mp h2
            have hset : ((picks.map (fun e => e.id))
                  ++ ((e :: rest).map (fun e => e.id))).toFinset
                = ((picks.map (fun e => e.id))
                  ++ (rest.map (fun e => e.id))).toFinset := by
              ext x
              simp only [List.toFinset_append, Finset.mem_union,
                List.mem_toFinset, List.map_cons, List.mem_cons]
              constructor
              · rintro (h | h | h)
                · exact Or.inl h
                · exact Or.inl (h ▸ hidmem)
                · exact Or.inr h
              · rintro (h | h)
                · exact Or.inl h
                · exact Or.inr (Or.inr h)
            rw [hlength, hset]
        · have hlt : picks.length < need := Nat.lt_of_not_le h1
          have hfe : fillFrom need (e :: rest) picks used
              = fillFrom need rest (picks ++ [e]) (e.id :: used) := by
            simp [fillFrom, h1, h2]
          have hnotin : e.id ∉ picks.map (fun e => e.id) :=
            fun hc => h2 ((hiff e.id).mpr hc)
          have hnd2 : ((picks ++ [e]).map (fun e => e.id)).Nodup := by
            rw [List.map_append]
            refine List.Nodup.append hnd (List.nodup_singleton _) ?_
            intro x hx hmem
            rw [List.map_singleton, List.mem_singleton] at hmem
            exact hnotin (hmem ▸ hx)
          have hiff2 : ∀ x, x ∈ (e.id :: used)
              ↔ x ∈ (picks ++ [e]).map (fun e => e.id) := by
            intro x
            rw [List.map_append, List.map_singleton, List.mem_append,
              List.mem_cons, hiff x, List.mem_singleton]
            tauto
          have hlen2 : (picks ++ [e]).length ≤ need := by
            rw [List.length_append, List.length_singleton]
            omega
          obtain ⟨⟨rest0, hrest0⟩, hmem, hnd', hiff', hlength, hle⟩ :=
            fillFrom_spec need rest (picks ++ [e]) (e.id :: used) hlen2 hnd2 hiff2
          rw [hfe]
          refine ⟨⟨e :: rest0, by rw [hrest0]; simp⟩, ?_, hnd', hiff', ?_, hle⟩
          · intro e' he'
            rcases hmem e' he' with h | h
            · rcases List.mem_append.mp h with h | h
              · exact Or.inl h
              · rw [List.mem_singleton] at h
                exact Or.inr (h ▸ List.mem_cons_self e rest)
            · exact Or.inr (List.mem_cons_of_mem _ h)
          · have harr : ((picks ++ [e]).map (fun e => e.id))
                ++ (rest.map (fun e => e.id))
                = (picks.map (fun e => e.id))
                  ++ ((e :: rest).map (fun e => e.id)) := by
              simp [List.map_append]
            rw [hlength, harr]

/-- C1: for a correct entry drawn from the Filtered View, `buildAnswerRecords`
returns a sequence that contains the correct entry's id exactly once, has no
repeated id, and has length `min answersCount (number of distinct ids in the
whole dataset)` — no padding, no duplication, no error. -/
theorem buildAnswerRecords_correct (need : Nat) (t1 t2 tf : ShuffleTape)
    (q : Entry) (ts : List String) (filtered data : List Entry)
    (hneed : 1 ≤ need) (hfil : filtered = applyTypeFilter ts data)
    (hq : q ∈ filtered) :
    ((buildAnswerRecords need t1 t2 tf q filtered data).map
        (fun e => e.id)).count q.id = 1
    ∧ ((buildAnswerRecords need t1 t2 tf q filtered data).map
        (fun e => e.id)).Nodup
    ∧ (buildAnswerRecords need t1 t2 tf q filtered data).length
        = min need ((data.map (fun e => e.id)).toFinset.card) := by
  have hsub : ∀ e ∈ filtered, e ∈ data := by
    rw [hfil]
    exact applyTypeFilter_mem_data ts data
  have finish : ∀ X : List Entry,
      (X.map (fun e => e.id)).Nodup → q ∈ X →
      X.length = min need ((data.map (fun e => e.id)).toFinset.card) →
      ((jsShuffle tf X).map (fun e => e.id)).count q.id = 1
      ∧ ((jsShuffle tf X).map (fun e => e.id)).Nodup
      ∧ (jsShuffle tf X).length
          = min need ((data.map (fun e => e.id)).toFinset.card) := by
    intro X hXnd hqX hXlen
    have hperm := jsShuffle_perm tf X
    have hmap := hperm.map (fun e => e.id)
    refine ⟨?_, ?_, ?_⟩
    · rw [hmap.count_eq]
      exact List.count_eq_one_of_mem hXnd (List.mem_map_of_mem _ hqX)
    · exact hmap.nodup_iff.mpr hXnd
    · rw [hperm.length_eq, hXlen]
  have hperm1 : (jsShuffle t1 (filtered.filter (fun it => it.id ≠ q.id))).Perm
      (filtered.filter (fun it => it.id ≠ q.id)) := jsShuffle_perm _ _
  obtain ⟨⟨rest1, hrest1⟩, hmem1, hnd1, hiff1, hlength1, hle1⟩ :=
    fillFrom_spec need (jsShuffle t1 (filtered.filter (fun it => it.id ≠ q.id)))
      [q] [q.id] (by simpa using hneed) (by simp) (by simp)
  have hq1 : q ∈ (fillFrom need
      (jsShuffle t1 (filtered.filter (fun it => it.id ≠ q.id))) [q] [q.id]).1 := by
    rw [hrest1]
    exact List.mem_append_left _ (List.mem_singleton_self q)
  have hmemdata : ∀ e ∈ (fillFrom need
      (jsShuffle t1 (filtered.filter (fun it => it.id ≠ q.id))) [q] [q.id]).1,
      e ∈ data := by
    intro e he
    rcases hmem1 e he with h | h
    · rw [List.mem_singleton] at h
      exact hsub _ (h ▸ hq)
    · exact hsub _ (List.mem_of_mem_filter (hperm1.mem_iff.mp h))
  simp only [buildAnswerRecords]
  by_cases hc : (fillFrom need
      (jsShuffle t1 (filtered.filter (fun it => it.id ≠ q.id))) [q] [q.id]).1.length
      < need
  · rw [if_pos hc]
    have hperm2 : (jsShuffle t2 (data.filter (fun it => it.id ≠ q.id))).Perm
        (data.filter (fun it => it.id ≠ q.id)) := jsShuffle_perm _ _
    obtain ⟨⟨rest2, hrest2⟩, hmem2, hnd2, hiff2, hlength2, hle2⟩ :=
      fillFrom_spec need (jsShuffle t2 (data.filter (fun it => it.id ≠ q.id)))
        (fillFrom need
          (jsShuffle t1 (filtered.filter (fun it => it.id ≠ q.id))) [q] [q.id]).1
        (fillFrom need
          (jsShuffle t1 (filtered.filter (fun it => it.id ≠ q.id))) [q] [q.id]).2
        hle1 hnd1 hiff1
    refine finish _ hnd2 (by rw [hrest2]; exact List.mem_append_left _ hq1) ?_
    rw [hlength2]
    congr 1
    apply congrArg
    ext x
    simp only [List.toFinset_append, Finset.mem_union, List.mem_toFinset,
      List.mem_map]
    constructor
    · rintro (⟨e, he, rfl⟩ | ⟨e, he, rfl⟩)
      · exact ⟨e, hmemdata e he, rfl⟩
      · exact ⟨e, List.mem_of_mem_filter (hperm2.mem_iff.mp he), rfl⟩
    · rintro ⟨e, he, rfl⟩
      by_cases hid : e.id = q.id
      · exact Or.inl ⟨q, hq1, hid.symm⟩
      · refine Or.inr ⟨e, hperm2.mem_iff.mpr (List.mem_filter.mpr ⟨he, ?_⟩), rfl⟩
        simpa using hid
  · rw [if_neg hc]
    have hlen1 : (fillFrom need
        (jsShuffle t1 (filtered.filter (fun it => it.id ≠ q.id))) [q] [q.id]).1.length
        = need := Nat.le_antisymm hle1 (Nat.le_of_not_lt hc)
    refine finish _ hnd1 hq1 ?_
    rw [hlen1]
    have hcard : need ≤ ((data.map (fun e => e.id)).toFinset.card) := by
      have hsubid : ((fillFrom need
          (jsShuffle t1 (filtered.filter (fun it => it.id ≠ q.id)))
          [q] [q.id]).1.map (fun e => e.id)).toFinset
          ⊆ (data.map (fun e => e.id)).toFinset := by
        intro x hx
        rw [List.mem_toFinset, List.mem_map] at hx
        obtain ⟨e, he, rfl⟩ := hx
        rw [List.mem_toFinset, List.mem_map]
        exact ⟨e, hmemdata e he, rfl⟩
      have h := Finset.card_le_card hsubid
      rw [List.toFinset_card_of_nodup hnd1, List.length_map, hlen1] at h
      exact h
    exact (Nat.min_eq_left hcard).symm

/-- Fixture dataset for the C1 witness. -/
def dataC1 : List Entry :=
  [⟨1, "X", "a", "一", "yi", ""⟩, ⟨2, "X", "b", "二", "er", ""⟩]

theorem buildAnswerRecords_correct_witness :
    (1 ≤ 4 ∧ (⟨1, "X", "a", "一", "yi", ""⟩ : Entry) ∈ applyTypeFilter ["X"] dataC1)
    ∧ ((buildAnswerRecords 4 tape0 tape0 tape0 ⟨1, "X", "a", "一", "yi", ""⟩
          (applyTypeFilter ["X"] dataC1) dataC1).map (fun e => e.id)).count 1 = 1
    ∧ ((buildAnswerRecords 4 tape0 tape0 tape0 ⟨1, "X", "a", "一", "yi", ""⟩
          (applyTypeFilter ["X"] dataC1) dataC1).map (fun e => e.id)).Nodup
    ∧ (buildAnswerRecords 4 tape0 tape0 tape0 ⟨1, "X", "a", "一", "yi", ""⟩
          (applyTypeFilter ["X"] dataC1) dataC1).length
        = min 4 ((dataC1.map (fun e => e.id)).toFinset.card) :=
  ⟨⟨by decide, by decide⟩,
    buildAnswerRecords_correct 4 tape0 tape0 tape0 ⟨1, "X", "a", "一", "yi", ""⟩
      ["X"] (applyTypeFilter ["X"] dataC1) dataC1 (by decide) rfl (by decide)⟩

/-- Fixture dataset for the C5 counterexample: the Filtered View (`TYPE "A"`)
has four entries but only one distinct id, so the builder must fall back. -/
def dataC5 : List Entry :=
  [⟨1, "A", "", "", "", "a"⟩, ⟨1, "A", "", "", "", "b"⟩,
   ⟨1, "A", "", "", "", "c"⟩, ⟨1, "A", "", "", "", "d"⟩,
   ⟨2, "B", "", "", "", "e"⟩]

/-- C5 counterexample: a Filtered View of size `answersCount = 4` whose ids
repeat makes `buildAnswerRecords` draw an entry from outside the Filtered
View, refuting the claim as stated. -/
theorem buildAnswerRecords_fallback_cex :
    4 ≤ (applyTypeFilter ["A"] dataC5).length
    ∧ (⟨1, "A", "", "", "", "a"⟩ : Entry) ∈ applyTypeFilter ["A"] dataC5
    ∧ ∃ e ∈ buildAnswerRecords 4 tape0 tape0 tape0 ⟨1, "A", "", "", "", "a"⟩
        (applyTypeFilter ["A"] dataC5) dataC5, e ∉ applyTypeFilter ["A"] dataC5 := by
  decide

/-- C5 amended: when the Filtered View's ids are pairwise distinct (the
dataset-wide invariant the spec assumes) and its size is at least
`answersCount`, the builder never reaches the fallback pool: every returned
entry is a member of the Filtered View. -/
theorem buildAnswerRecords_prefers_filtered (need : Nat)
    (t1 t2 tf : ShuffleTape) (q : Entry) (ts : List String)
    (filtered data : List Entry)
    (hneed : 1 ≤ need) (hfil : filtered = applyTypeFilter ts data)
    (hq : q ∈ filtered)
    (hnd : (filtered.map (fun e => e.id)).Nodup)
    (hsize : need ≤ filtered.length) :
    ∀ e ∈ buildAnswerRecords need t1 t2 tf q filtered data, e ∈ filtered := by
  have hperm1 : (jsShuffle t1 (filtered.filter (fun it => it.id ≠ q.id))).Perm
      (filtered.filter (fun it => it.id ≠ q.id)) := jsShuffle_perm _ _
  obtain ⟨⟨rest1, hrest1⟩, hmem1, hnd1, hiff1, hlength1, hle1⟩ :=
    fillFrom_spec need (jsShuffle t1 (filtered.filter (fun it => it.id ≠ q.id)))
      [q] [q.id] (by simpa using hneed) (by simp) (by simp)
  have hset : (([q].map (fun e => e.id))
        ++ ((jsShuffle t1 (filtered.filter (fun it => it.id ≠ q.id))).map
            (fun e => e.id))).toFinset
      = (filtered.map (fun e => e.id)).toFinset := by
    ext x
    simp only [List.toFinset_append, Finset.mem_union, List.mem_toFinset,
      List.mem_map, List.map_singleton, List.mem_singleton]
    constructor
    · rintro (rfl | ⟨e, he, rfl⟩)
      · exact ⟨q, hq, rfl⟩
      · exact ⟨e, List.mem_of_mem_filter (hperm1.mem_iff.mp he), rfl⟩
    · rintro ⟨e, he, rfl⟩
      by_cases hid : e.id = q.id
      · exact Or.inl hid
      · refine Or.inr ⟨e, hperm1.mem_iff.mpr (List.mem_filter.mpr ⟨he, ?_⟩), rfl⟩
        simpa using hid
  have hlen1 : (fillFrom need
      (jsShuffle t1 (filtered.filter (fun it => it.id ≠ q.id))) [q] [q.id]).1.length
      = need := by
    rw [hlength1, hset, List.toFinset_card_of_nodup hnd, List.length_map]
    exact Nat.min_eq_left hsize
  intro e he
  simp only [buildAnswerRecords] at he
  rw [if_neg (by rw [hlen1]; exact Nat.lt_irrefl need)] at he
  have he' := (jsShuffle_perm tf _).mem_iff.mp he
  rcases hmem1 e he' with h | h
  · rw [List.mem_singleton] at h
    exact h ▸ hq
  · exact List.mem_of_mem_filter (hperm1.mem_iff.mp h)

theorem buildAnswerRecords_prefers_filtered_witness :
    (1 ≤ 2 ∧ 2 ≤ (applyTypeFilter ["X"] dataC1).length
      ∧ ((applyTypeFilter ["X"] dataC1).map (fun e => e.id)).Nodup)
    ∧ ∀ e ∈ buildAnswerRecords 2 tape0 tape0 tape0 ⟨1, "X", "a", "一", "yi", ""⟩
        (applyTypeFilter ["X"] dataC1) dataC1, e ∈ applyTypeFilter ["X"] dataC1 :=
  ⟨⟨by decide, by decide, by decide⟩,
    buildAnswerRecords_prefers_filtered 2 tape0 tape0 tape0
      ⟨1, "X", "a", "一", "yi", ""⟩ ["X"] (applyTypeFilter ["X"] dataC1) dataC1
      (by decide) rfl (by decide) (by decide) (by decide)⟩

/-- C4: on label lists that are already trimmed and non-empty (the caller's
contract), `applyTypeFilter` is exactly "keep the entries whose `TYPE` equals
some requested label, in dataset order, falling back to the whole dataset
when that strict filter is empty"; hence the Filtered View is non-empty
whenever the dataset is. -/
theorem applyTypeFilter_spec (ts : List String) (data : List Entry)
    (h : ∀ t ∈ ts, jsTrim t = t ∧ t ≠ "") :
    applyTypeFilter ts data
      = (if data.filter (fun e => e.TYPE ∈ ts) = [] then data
         else data.filter (fun e => e.TYPE ∈ ts))
    ∧ (data ≠ [] → applyTypeFilter ts data ≠ []) := by
  have hsan : (ts.map jsTrim).filter (fun s => s ≠ "") = ts := by
    have h1 : ts.map jsTrim = ts := by
      have h2 := List.map_congr_left (fun t ht => (h t ht).1)
      rw [h2]
      simp
    rw [h1]
    refine List.filter_eq_self.mpr (fun t ht => ?_)
    exact decide_eq_true (h t ht).2
  constructor
  · simp only [applyTypeFilter, hsan]
    by_cases hc : data.filter (fun e => e.TYPE ∈ ts) = []
    · rw [if_pos hc, if_pos (by rw [hc]; rfl)]
    · rw [if_neg hc, if_neg (fun he => hc (List.isEmpty_iff.mp he))]
  · intro hdata
    simp only [applyTypeFilter]
    split
    · exact hdata
    · rename_i hc
      intro hcontra
      exact hc (by rw [hcontra]; rfl)

theorem applyTypeFilter_spec_witness :
    (∀ t ∈ ["HSK1"], jsTrim t = t ∧ t ≠ "")
    ∧ applyTypeFilter ["HSK1"] dataC1
        = (if dataC1.filter (fun e => e.TYPE ∈ ["HSK1"]) = [] then dataC1
           else dataC1.filter (fun e => e.TYPE ∈ ["HSK1"]))
    ∧ (dataC1 ≠ [] → applyTypeFilter ["HSK1"] dataC1 ≠ []) :=
  ⟨by decide, applyTypeFilter_spec ["HSK1"] dataC1 (by decide)⟩

/-- Id derivation as the spec words it: prefer a non-nullish `id` property,
then a non-nullish `ID` property, then the 1-based ordinal; use the ordinal
again when the numeric coercion of the chosen property is not finite. -/
def derivedIdSpec (idx : Nat) (r : RawRecord) : Int :=
  match r.idField with
  | some (JsNum.finite n) => n
  | some JsNum.nonFinite => (idx : Int) + 1
  | none =>
    match r.ID with
    | some (JsNum.finite n) => n
    | some JsNum.nonFinite => (idx : Int) + 1
    | none => (idx : Int) + 1

/-- The normalizer as the spec describes it: drop records whose `TYPE` trims
to empty, keep the rest with the derived id, the trimmed type and the other
fields unchanged. -/
def normalizeSpec (raw : List RawRecord) : List Entry :=
  raw.enum.filterMap (fun p =>
    if jsTrim (p.2.TYPE.getD "") = "" then none
    else some { id := derivedIdSpec p.1 p.2, TYPE := jsTrim (p.2.TYPE.getD ""),
                VIETNAMESE := p.2.VIETNAMESE, GIANTHE := p.2.GIANTHE,
                PINYIN := p.2.PINYIN, VD := p.2.VD })

theorem normalizeEntry_eq (idx : Nat) (r : RawRecord) :
    normalizeEntry idx r
      = { id := derivedIdSpec idx r, TYPE := jsTrim (r.TYPE.getD ""),
          VIETNAMESE := r.VIETNAMESE, GIANTHE := r.GIANTHE,
          PINYIN := r.PINYIN, VD := r.VD } := by
  cases hf : r.idField with
  | none =>
    cases hg : r.ID with
    | none => simp [normalizeEntry, derivedIdSpec, hf, hg]
    | some v => cases v <;> simp [normalizeEntry, derivedIdSpec, hf, hg]
  | some v => cases v <;> simp [normalizeEntry, derivedIdSpec, hf]

theorem norm_eq_spec_aux :
    ∀ l : List (Nat × RawRecord),
      (l.map (fun p => normalizeEntry p.1 p.2)).filter (fun it => it.TYPE ≠ "")
        = l.filterMap (fun p =>
            if jsTrim (p.2.TYPE.getD "") = "" then none
            else some { id := derivedIdSpec p.1 p.2,
                        TYPE := jsTrim (p.2.TYPE.getD ""),
                        VIETNAMESE := p.2.VIETNAMESE, GIANTHE := p.2.GIANTHE,
                        PINYIN := p.2.PINYIN, VD := p.2.VD })
  | [] => rfl
  | p :: tl => by
      have ih := norm_eq_spec_aux tl
      by_cases hc : jsTrim (p.2.TYPE.getD "") = ""
      · have hty : (normalizeEntry p.1 p.2).TYPE = "" := by
          rw [normalizeEntry_eq]
          exact hc
        simp only [List.map_cons, List.filterMap_cons, List.filter_cons, hty,
          if_pos hc]
        simpa using ih
      · have hty : ¬ ((normalizeEntry p.1 p.2).TYPE = "") := by
          rw [normalizeEntry_eq]
          exact hc
        simp only [List.map_cons, List.filterMap_cons, List.filter_cons,
          if_neg hc]
        rw [if_pos (by simpa using hty)]
        rw [ih, normalizeEntry_eq]

/-- C7: `normalizeData` refines the spec's description — every output entry
has its id derived by the `id`-then-`ID`-then-ordinal preference (ordinal
again when the coercion is not finite, hence always finite), its `TYPE`
trimmed and non-empty, and records whose `TYPE` trims to empty are dropped
entirely. -/
theorem normalizeData_spec (raw : List RawRecord) :
    normalizeData raw = normalizeSpec raw
    ∧ ∀ e ∈ normalizeData raw, e.TYPE ≠ "" := by
  constructor
  · exact norm_eq_spec_aux raw.enum
  · intro e he
    have := List.of_mem_filter he
    simpa using this

/-- Does an optional JS number hold a finite value? -/
def isFiniteNum : Option JsNum → Bool
  | some (JsNum.finite _) => true
  | _ => false

/-- C6 counterexample: two raw records carrying the same explicit finite id
survive normalization with duplicate ids — `normalizeData` never
deduplicates, so the uniqueness invariant fails as stated. -/
theorem normalizeData_unique_ids_cex :
    ¬ (((normalizeData
        [⟨some (JsNum.finite 1), none, some "A", "", "", "", ""⟩,
         ⟨some (JsNum.finite 1), none, some "A", "", "", "", ""⟩]).map
        (fun e => e.id)).Nodup) := by
  decide

/-- C6 amended: output ids are pairwise distinct whenever no raw record
carries an `id`/`ID` property with a finite numeric coercion, so that every
id falls back to the record's 1-based ordinal position. -/
theorem normalizeData_ordinal_ids_nodup (raw : List RawRecord)
    (h : ∀ r ∈ raw, isFiniteNum r.idField = false ∧ isFiniteNum r.ID = false) :
    ((normalizeData raw).map (fun e => e.id)).Nodup := by
  have hsl : (normalizeData raw).Sublist
      (raw.enum.map (fun p => normalizeEntry p.1 p.2)) := List.filter_sublist _
  have hslm := hsl.map (fun e => e.id)
  refine List.Nodup.sublist hslm ?_
  have hpt : ∀ p ∈ raw.enum, (normalizeEntry p.1 p.2).id = (p.1 : Int) + 1 := by
    intro p hp
    have hmem : p.2 ∈ raw := by
      have := List.mem_map_of_mem Prod.snd hp
      rwa [List.enum_map_snd] at this
    obtain ⟨h1, h2⟩ := h p.2 hmem
    cases hf : p.2.idField with
    | none =>
      cases hg : p.2.ID with
      | none => simp [normalizeEntry, hf, hg]
      | some v =>
        cases v with
        | finite n => rw [hg] at h2; simp [isFiniteNum] at h2
        | nonFinite => simp [normalizeEntry, hf, hg]
    | some v =>
      cases v with
      | finite n => rw [hf] at h1; simp [isFiniteNum] at h1
      | nonFinite => simp [normalizeEntry, hf]
  have hmapeq : (raw.enum.map (fun p => normalizeEntry p.1 p.2)).map
        (fun e => e.id)
      = raw.enum.map (fun p => (p.1 : Int) + 1) := by
    rw [List.map_map]
    exact List.map_congr_left (fun p hp => hpt p hp)
  rw [hmapeq]
  have hcomp : raw.enum.map (fun p => ((p.1 : Int) + 1))
      = (raw.enum.map Prod.fst).map (fun n : Nat => (n : Int) + 1) := by
    rw [List.map_map]
    rfl
  rw [hcomp]
  refine List.Nodup.map ?_ (List.nodup_enum_map_fst raw)
  intro a b hab
  have hab2 : (a : Int) + 1 = (b : Int) + 1 := hab
  omega

/-- Fixture raw records: no explicit finite id anywhere. -/
def rawC6 : List RawRecord :=
  [⟨none, none, some "A", "", "", "", ""⟩,
   ⟨some JsNum.nonFinite, none, some "B", "", "", "", ""⟩]

theorem normalizeData_ordinal_ids_nodup_witness :
    (∀ r ∈ rawC6, isFiniteNum r.idField = false ∧ isFiniteNum r.ID = false)
    ∧ ((normalizeData rawC6).map (fun e => e.id)).Nodup :=
  ⟨by decide, normalizeData_ordinal_ids_nodup rawC6 (by decide)⟩

/-- `SETTINGS.scoring`. -/
structure Scoring : Type where
  correct : Int
  wrong : Int
  floor : Int
deriving DecidableEq

/-- `SETTINGS.autoNext`. -/
structure AutoNextCfg : Type where
  enabled : Bool
  delayMs : Int
deriving DecidableEq

/-- The engine-relevant part of `SETTINGS`. -/
structure Settings : Type where
  scoring : Scoring
  autoNext : AutoNextCfg
  defaultTypes : List String
  answersCount : Nat
deriving DecidableEq

/-- The built-in defaults of the source. -/
def defaultSettings : Settings :=
  { scoring := { correct := 20, wrong := -10, floor := 0 },
    autoNext := { enabled := true, delayMs := 5000 },
    defaultTypes := ["HSK1"],
    answersCount := 4 }

/-- The three ask-capable fields (`ASK_TYPES = ["VIETNAMESE","GIẢN THỂ","PINYIN"]`). -/
inductive AskField : Type where
  | VIETNAMESE
  | GIANTHE
  | PINYIN
deriving DecidableEq

def ASK_TYPES : List AskField :=
  [AskField.VIETNAMESE, AskField.GIANTHE, AskField.PINYIN]

/-- Dynamic field access `record[askType]`. -/
def Entry.field (e : Entry) : AskField → String
  | AskField.VIETNAMESE => e.VIETNAMESE
  | AskField.GIANTHE => e.GIANTHE
  | AskField.PINYIN => e.PINYIN

/-- `updateInstruction()`: the if/else chain over `(askType, answerType)`;
the final `else` is the catch-all branch of the source. -/
def instructionText (ask ans : AskField) : String :=
  if ask = AskField.VIETNAMESE ∧ ans = AskField.GIANTHE then
    "Chọn chữ Hán tương ứng với cụm từ tiếng Việt trên"
  else if ask = AskField.VIETNAMESE ∧ ans = AskField.PINYIN then
    "Chọn pinyin tương ứng với cụm từ tiếng Việt trên"
  else if ask = AskField.GIANTHE ∧ ans = AskField.VIETNAMESE then
    "Chọn nghĩa tiếng Việt đúng của từ tiếng Trung trên"
  else if ask = AskField.GIANTHE ∧ ans = AskField.PINYIN then
    "Chọn pinyin đúng của từ tiếng Trung trên"
  else if ask = AskField.PINYIN ∧ ans = AskField.GIANTHE then
    "Chọn chữ Hán đúng với pinyin trên"
  else
    "Chọn nghĩa tiếng Việt đúng với pinyin trên"

/-- Modelled from the spec: the total lookup over the six ordered pairs of
distinct ask-capable fields (junk value on the diagonal, which never occurs). -/
def sixPairLookup : AskField → AskField → String
  | AskField.VIETNAMESE, AskField.GIANTHE =>
    "Chọn chữ Hán tương ứng với cụm từ tiếng Việt trên"
  | AskField.VIETNAMESE, AskField.PINYIN =>
    "Chọn pinyin tương ứng với cụm từ tiếng Việt trên"
  | AskField.GIANTHE, AskField.VIETNAMESE =>
    "Chọn nghĩa tiếng Việt đúng của từ tiếng Trung trên"
  | AskField.GIANTHE, AskField.PINYIN =>
    "Chọn pinyin đúng của từ tiếng Trung trên"
  | AskField.PINYIN, AskField.GIANTHE =>
    "Chọn chữ Hán đúng với pinyin trên"
  | AskField.PINYIN, AskField.VIETNAMESE =>
    "Chọn nghĩa tiếng Việt đúng với pinyin trên"
  | _, _ => ""

/-- One `.opt` DOM button: its `dataset.id` string, its CSS classes
(`disabled`, `is-wrong`, `is-correct`), its visibility/display state and its
label text. -/
structure OptSlot : Type where
  idStr : String
  disabled : Bool
  isWrong : Bool
  isCorrect : Bool
  hidden : Bool
  displayNone : Bool
  label : String
deriving DecidableEq

/-- The module-level mutable state of the engine. -/
structure Engine : Type where
  data : List Entry
  filtered : List Entry
  currentQuestion : Option Entry
  correctId : Option Int
  askType : Option AskField
  answerType : Option AskField
  score : Int
  answered : Bool
  autoTimer : Bool
  wrongOptionIds : List Int
  qCount : Nat
  instruction : String
  opts : List OptSlot
deriving DecidableEq

/-- The initial state (module-level initializers of the source). -/
def initEngine (data : List Entry) (opts : List OptSlot) : Engine :=
  { data := data, filtered := [], currentQuestion := none, correctId := none,
    askType := none, answerType := none, score := 0, answered := false,
    autoTimer := false, wrongOptionIds := [], qCount := 0, instruction := "",
    opts := opts }

/-- Notifications the engine sends to the presentation layer. -/
inductive Ev : Type where
  | speak (text : String)
  | sfx (kind : String)
  | armAutoNext (delayMs : Int)
deriving DecidableEq

/-- `findRecordById(id)`: Filtered View first, then the whole dataset. -/
def findRecordById (s : Engine) (n : Int) : Option Entry :=
  match s.filtered.find? (fun it => it.id = n) with
  | some r => some r
  | none => s.data.find? (fun it => it.id = n)

/-- Update slot `i` in place (a no-op when `i` is out of range). -/
def setSlot (opts : List OptSlot) (i : Nat) (f : OptSlot → OptSlot) : List OptSlot :=
  match opts[i]? with
  | none => opts
  | some o => opts.set i (f o)

/-- `handleWrong(opt, pickedId)`: clamp the score at the floor
(`clamp(x, floor, +Infinity) = max floor x`), record the wrong id, disable
and mark the picked option. -/
def handleWrong (cfg : Settings) (s : Engine) (i : Nat) (pickedId : Int) :
    Engine × List Ev :=
  ({ s with
      score := max cfg.scoring.floor (s.score + cfg.scoring.wrong),
      wrongOptionIds := pickedId :: s.wrongOptionIds,
      opts := setSlot s.opts i (fun o => { o with isWrong := true, disabled := true }) },
   [Ev.sfx "fail"])

/-- `handleCorrect(opt)`: unclamped score increase, lock the round, disable
all options, and (when enabled) re-arm the auto-advance timer. -/
def handleCorrect (cfg : Settings) (s : Engine) (i : Nat) : Engine × List Ev :=
  let opts1 := setSlot s.opts i (fun o => { o with isCorrect := true })
  let opts2 := opts1.map (fun o => { o with disabled := true })
  let base : Engine :=
    { s with score := s.score + cfg.scoring.correct, answered := true,
             opts := opts2 }
  if cfg.autoNext.enabled then
    ({ base with autoTimer := true },
      [Ev.sfx "true", Ev.armAutoNext cfg.autoNext.delayMs])
  else
    (base, [Ev.sfx "true"])

/-- The Chinese text spoken for a picked option: the `"GIẢN THỂ"` field of the
record found by id, empty when no record is found. -/
def speakTextFor (s : Engine) (pickedId : Int) : String :=
  match findRecordById s pickedId with
  | some r => r.GIANTHE
  | none => ""

/-- `onPickOption(opt)` for the button at index `i`:  locked rounds, disabled
options and non-parsing `dataset.id` values are ignored; then the option is
spoken; already-wrong ids are ignored; otherwise score as correct or wrong. -/
def onPickOption (cfg : Settings) (s : Engine) (i : Nat) : Engine × List Ev :=
  if s.answered then (s, [])
  else
    match s.opts[i]? with
    | none => (s, [])
    | some o =>
      if o.disabled then (s, [])
      else
        match parseIntJs o.idStr with
        | none => (s, [])
        | some pickedId =>
          if pickedId ∈ s.wrongOptionIds then
            (s, [Ev.speak (speakTextFor s pickedId)])
          else if s.correctId = some pickedId then
            ((handleCorrect cfg s i).1,
              Ev.speak (speakTextFor s pickedId) :: (handleCorrect cfg s i).2)
          else
            ((handleWrong cfg s i pickedId).1,
              Ev.speak (speakTextFor s pickedId) :: (handleWrong cfg s i pickedId).2)

/-- `renderAnswers()`: slot `i` shows record `i`; surplus slots are hidden
and get an empty `dataset.id` and label. -/
def renderOpts (opts : List OptSlot) (records : List Entry) (ans : AskField) :
    List OptSlot :=
  opts.enum.map (fun p =>
    match records[p.1]? with
    | none => { p.2 with displayNone := true, idStr := "", label := "" }
    | some r => { p.2 with idStr := toString r.id, label := r.field ans })

/-- The random draws a single `nextQuestion()` call consumes. -/
structure QChoices : Type where
  qIdx : Nat
  askIdx : Nat
  ansIdx : Nat
  t1 : ShuffleTape
  t2 : ShuffleTape
  tf : ShuffleTape

/-- `nextQuestion(opts)`: cancel any pending auto-advance, reset the attempt
state, re-apply the type filter, draw the question and the ask/answer pair,
bump the question counter, render the answers and re-enable every option.
`none` models the crash on an empty candidate pool (`randomItem` yielding
`undefined`), which `randInt`'s contract otherwise rules out. -/
def nextQuestion (cfg : Settings) (c : QChoices) (playSwitchSfx : Bool)
    (s : Engine) : Option (Engine × List Ev) :=
  match (applyTypeFilter cfg.defaultTypes s.data)[c.qIdx]? with
  | none => none
  | some q =>
    match ASK_TYPES[c.askIdx]? with
    | none => none
    | some ask =>
      match (ASK_TYPES.filter (fun t => t ≠ ask))[c.ansIdx]? with
      | none => none
      | some ans =>
        let filtered := applyTypeFilter cfg.defaultTypes s.data
        let records := buildAnswerRecords cfg.answersCount c.t1 c.t2 c.tf q
          filtered s.data
        let optsR := renderOpts s.opts records ans
        let optsFinal := optsR.map (fun o =>
          { o with disabled := false, isWrong := false, isCorrect := false,
                   hidden := false, displayNone := false })
        some ({ s with
                  filtered := filtered,
                  currentQuestion := some q,
                  correctId := some q.id,
                  askType := some ask,
                  answerType := some ans,
                  answered := false,
                  wrongOptionIds := [],
                  autoTimer := false,
                  qCount := s.qCount + 1,
                  instruction := instructionText ask ans,
                  opts := optsFinal },
          if playSwitchSfx then [Ev.sfx "switch"] else [])

/-- `onSkip()`: unconditionally start a new round. -/
def onSkip (cfg : Settings) (c : QChoices) (s : Engine) : Option (Engine × List Ev) :=
  nextQuestion cfg c true s

/-- `onContinue()`: unconditionally start a new round. -/
def onContinue (cfg : Settings) (c : QChoices) (s : Engine) : Option (Engine × List Ev) :=
  nextQuestion cfg c true s

/-- The auto-advance timeout callback: it runs `nextQuestion` only when the
timer is still pending (a cancelled timer never fires). -/
def fireAutoNext (cfg : Settings) (c : QChoices) (s : Engine) :
    Option (Engine × List Ev) :=
  if s.autoTimer then nextQuestion cfg c true s else some (s, [])

/-- `onHint()`: among visible, unhidden, enabled, non-correct options pick a
random one (head of a shuffle) and hide it; no-op once locked or when no
candidate exists. -/
def onHint (t : ShuffleTape) (s : Engine) : Engine :=
  if s.answered then s
  else
    match jsShuffle t (s.opts.enum.filter (fun p =>
      !p.2.displayNone && !p.2.hidden && !p.2.disabled &&
        (match parseIntJs p.2.idStr, s.correctId with
         | some m, some n => m != n
         | _, _ => true))) with
    | [] => s
    | p :: _ => { s with opts := setSlot s.opts p.1 (fun o => { o with hidden := true }) }

/-- C2: while the round is Active, a wrong pick sets the score to
`max floor (score + wrongPoints)` (so it never drops below the floor), and a
correct pick adds `correctPoints` with no clamping. -/
theorem score_update_clamped (cfg : Settings) (s : Engine) (i : Nat)
    (o : OptSlot) (pid : Int)
    (ho : s.opts[i]? = some o) (hans : s.answered = false)
    (hdis : o.disabled = false) (hp : parseIntJs o.idStr = some pid)
    (hw : pid ∉ s.wrongOptionIds) :
    (s.correctId ≠ some pid →
        (onPickOption cfg s i).1.score
          = max cfg.scoring.floor (s.score + cfg.scoring.wrong)
        ∧ cfg.scoring.floor ≤ (onPickOption cfg s i).1.score)
    ∧ (s.correctId = some pid →
        (onPickOption cfg s i).1.score = s.score + cfg.scoring.correct) := by
  have hred : onPickOption cfg s i
      = (if s.correctId = some pid then
          ((handleCorrect cfg s i).1,
            Ev.speak (speakTextFor s pid) :: (handleCorrect cfg s i).2)
        else
          ((handleWrong cfg s i pid).1,
            Ev.speak (speakTextFor s pid) :: (handleWrong cfg s i pid).2)) := by
    rw [onPickOption]
    simp only [hans, Bool.false_eq_true, if_false, ho, hdis, hp]
    rw [if_neg hw]
  constructor
  · intro hc
    rw [hred, if_neg hc]
    exact ⟨rfl, le_max_left _ _⟩
  · intro hc
    rw [hred, if_pos hc]
    unfold handleCorrect
    by_cases he : cfg.autoNext.enabled = true <;> simp [he]

/-- Fixture for the pick theorems: one enabled option whose id string is "3". -/
def slotW : OptSlot :=
  { idStr := "3", disabled := false, isWrong := false, isCorrect := false,
    hidden := false, displayNone := false, label := "b" }

/-- Fixture engine: Active round, score 5, correct id 7, one option slot. -/
def engC2 : Engine :=
  { data := dataC1, filtered := dataC1, currentQuestion := none,
    correctId := some 7, askType := none, answerType := none, score := 5,
    answered := false, autoTimer := false, wrongOptionIds := [], qCount := 1,
    instruction := "", opts := [slotW] }

theorem score_update_clamped_witness :
    (onPickOption defaultSettings engC2 0).1.score
      = max defaultSettings.scoring.floor (engC2.score + defaultSettings.scoring.wrong)
    ∧ defaultSettings.scoring.floor ≤ (onPickOption defaultSettings engC2 0).1.score
    ∧ (onPickOption defaultSettings engC2 0).1.score = 0 := by
  have h := (score_update_clamped defaultSettings engC2 0 slotW 3 (by decide)
    (by decide) (by decide) (by decide) (by decide)).1 (by decide)
  exact ⟨h.1, h.2, by rw [h.1]; decide⟩

/-- C3: a pick while the round is Locked (`answered = true`), or a pick of an
id already recorded in `wrongOptionIds` while Active, leaves the engine state
completely unchanged (score, `answered`, `wrongPicks` and all the rest). -/
theorem locked_or_wrong_pick_ignored (cfg : Settings) (s : Engine) (i : Nat) :
    (s.answered = true → (onPickOption cfg s i).1 = s)
    ∧ (∀ o pid, s.opts[i]? = some o → s.answered = false →
        parseIntJs o.idStr = some pid → pid ∈ s.wrongOptionIds →
        (onPickOption cfg s i).1 = s) := by
  constructor
  · intro h
    rw [onPickOption, if_pos (by rw [h])]
  · intro o pid ho hans hp hw
    rw [onPickOption]
    simp only [hans, Bool.false_eq_true, if_false, ho]
    by_cases hd : o.disabled = true
    · simp only [hd, if_true]
    · rw [Bool.not_eq_true] at hd
      simp only [hd, Bool.false_eq_true, if_false, hp]
      rw [if_pos hw]

/-- Locked-round fixture. -/
def engC3a : Engine := { engC2 with answered := true }

/-- Already-wrong fixture: id 3 is recorded in `wrongOptionIds`. -/
def engC3b : Engine := { engC2 with wrongOptionIds := [3] }

theorem locked_or_wrong_pick_ignored_witness :
    (onPickOption defaultSettings engC3a 0).1 = engC3a
    ∧ (onPickOption defaultSettings engC3b 0).1 = engC3b :=
  ⟨(locked_or_wrong_pick_ignored defaultSettings engC3a 0).1 (by decide),
    (locked_or_wrong_pick_ignored defaultSettings engC3b 0).2 slotW 3
      (by decide) (by decide) (by decide) (by decide)⟩

/-- C10: picking a slot whose stored id string does not parse to a finite
integer is a complete no-op (state unchanged, no event emitted); and the
surplus slots produced by `renderAnswers` when the answer set is smaller than
the slot count carry the empty id string, which does not parse. -/
theorem nonparsing_pick_noop (cfg : Settings) (s : Engine) (i : Nat)
    (o : OptSlot) :
    (s.opts[i]? = some o → parseIntJs o.idStr = none →
      onPickOption cfg s i = (s, []))
    ∧ (∀ (opts : List OptSlot) (records : List Entry) (ans : AskField) (j : Nat),
        records.length ≤ j → j < opts.length →
        ∃ o2, (renderOpts opts records ans)[j]? = some o2 ∧ o2.idStr = ""
          ∧ parseIntJs o2.idStr = none) := by
  constructor
  · intro ho hp
    by_cases hans : s.answered = true
    · rw [onPickOption, if_pos (by rw [hans])]
    · rw [Bool.not_eq_true] at hans
      rw [onPickOption]
      simp only [hans, Bool.false_eq_true, if_false, ho]
      by_cases hd : o.disabled = true
      · simp only [hd, if_true]
      · rw [Bool.not_eq_true] at hd
        simp only [hd, Bool.false_eq_true, if_false, hp]
  · intro opts records ans j hrec hj
    have hslot : opts[j]? = some (opts[j]) := List.getElem?_eq_getElem hj
    have henum : opts.enum[j]? = some (j, opts[j]) := by
      rw [List.getElem?_enum, hslot]
      rfl
    have hrecs : records[j]? = none := List.getElem?_eq_none hrec
    refine ⟨{ opts[j] with displayNone := true, idStr := "", label := "" },
      ?_, rfl, rfl⟩
    rw [renderOpts, List.getElem?_map, henum]
    simp only [Option.map_some', hrecs]

/-- Fixture engine with a surplus slot (index 1, empty id string). -/
def engC10 : Engine :=
  { engC2 with
      opts := [slotW,
        { idStr := "", disabled := false, isWrong := false, isCorrect := false,
          hidden := false, displayNone := true, label := "" }] }

theorem nonparsing_pick_noop_witness :
    onPickOption defaultSettings engC10 1 = (engC10, [])
    ∧ ∃ o2, (renderOpts [slotW, slotW] [⟨1, "X", "a", "一", "yi", ""⟩]
        AskField.VIETNAMESE)[1]? = some o2 ∧ o2.idStr = ""
        ∧ parseIntJs o2.idStr = none :=
  ⟨(nonparsing_pick_noop defaultSettings engC10 1
      { idStr := "", disabled := false, isWrong := false, isCorrect := false,
        hidden := false, displayNone := true, label := "" }).1
      (by decide) (by decide),
    (nonparsing_pick_noop defaultSettings engC10 1 slotW).2 [slotW, slotW]
      [⟨1, "X", "a", "一", "yi", ""⟩] AskField.VIETNAMESE 1
      (by decide) (by decide)⟩

theorem onPickOption_qCount (cfg : Settings) (s : Engine) (i : Nat) :
    (onPickOption cfg s i).1.qCount = s.qCount := by
  rw [onPickOption]
  split
  · rfl
  · split
    · rfl
    · split
      · rfl
      · split
        · rfl
        · split
          · rfl
          · split
            · simp only [handleCorrect]
              split <;> rfl
            · rfl

theorem onHint_qCount (t : ShuffleTape) (s : Engine) :
    (onHint t s).qCount = s.qCount := by
  rw [onHint]
  split
  · rfl
  · split <;> rfl

/-- C8: `skip()`/`continue()` unconditionally start a new round; every round
start cancels any pending auto-advance (so a cancelled timer can never fire),
resets the attempt state, and bumps the question counter by exactly one; no
other operation changes the counter, and it starts at 0. -/
theorem nextQuestion_lifecycle (cfg : Settings) (c : QChoices) (ps : Bool)
    (s s2 : Engine) (evs : List Ev)
    (h : nextQuestion cfg c ps s = some (s2, evs)) :
    s2.answered = false ∧ s2.wrongOptionIds = [] ∧ s2.autoTimer = false
    ∧ s2.qCount = s.qCount + 1
    ∧ (∀ cfg2 c2, fireAutoNext cfg2 c2 s2 = some (s2, []))
    ∧ onSkip cfg c s = nextQuestion cfg c true s
    ∧ onContinue cfg c s = nextQuestion cfg c true s
    ∧ (∀ j, (onPickOption cfg s j).1.qCount = s.qCount)
    ∧ (∀ t, (onHint t s).qCount = s.qCount)
    ∧ (∀ d o, (initEngine d o).qCount = 0) := by
  rw [nextQuestion] at h
  split at h
  · exact Option.noConfusion h
  · split at h
    · exact Option.noConfusion h
    · split at h
      · exact Option.noConfusion h
      · simp only [Option.some.injEq, Prod.mk.injEq] at h
        obtain ⟨hs2, hevs⟩ := h
        subst hs2
        refine ⟨rfl, rfl, rfl, rfl, ?_, rfl, rfl,
          fun j => onPickOption_qCount cfg s j,
          fun t => onHint_qCount t s, fun d o => rfl⟩
        intro cfg2 c2
        rw [fireAutoNext]
        rfl

/-- Fixture: the randomness of one round — all indices 0, all-zero tapes. -/
def qc0 : QChoices := ⟨0, 0, 0, tape0, tape0, tape0⟩

/-- Fixture engine for the lifecycle witnesses. -/
def engC8 : Engine := initEngine dataC1 [slotW]

theorem nextQuestion_lifecycle_witness :
    ∃ p : Engine × List Ev,
      nextQuestion defaultSettings qc0 true engC8 = some p
      ∧ p.1.answered = false ∧ p.1.wrongOptionIds = [] ∧ p.1.autoTimer = false
      ∧ p.1.qCount = engC8.qCount + 1
      ∧ (∀ cfg2 c2, fireAutoNext cfg2 c2 p.1 = some (p.1, [])) := by
  obtain ⟨p, hp⟩ := Option.isSome_iff_exists.mp
    (by decide : (nextQuestion defaultSettings qc0 true engC8).isSome = true)
  have h := nextQuestion_lifecycle defaultSettings qc0 true engC8 p.1 p.2 hp
  exact ⟨p, hp, h.1, h.2.1, h.2.2.1, h.2.2.2.1, h.2.2.2.2.1⟩

/-- C9: every round has `askType` and `answerType` drawn from the three
ask-capable fields with `askType ≠ answerType` (structurally, by drawing the
answer field from the remaining two); the instruction is the fixed lookup
over the six ordered pairs and the chain's final `else` text occurs only for
the `(PINYIN, VIETNAMESE)` pair. -/
theorem askAnswer_distinct_instruction (cfg : Settings) (c : QChoices)
    (ps : Bool) (s s2 : Engine) (evs : List Ev)
    (h : nextQuestion cfg c ps s = some (s2, evs)) :
    ∃ a b, s2.askType = some a ∧ s2.answerType = some b
      ∧ a ∈ ASK_TYPES ∧ b ∈ ASK_TYPES ∧ a ≠ b
      ∧ s2.instruction = instructionText a b
      ∧ instructionText a b = sixPairLookup a b
      ∧ (instructionText a b = "Chọn nghĩa tiếng Việt đúng với pinyin trên"
          → a = AskField.PINYIN ∧ b = AskField.VIETNAMESE) := by
  rw [nextQuestion] at h
  split at h
  · exact Option.noConfusion h
  · split at h
    · exact Option.noConfusion h
    · rename_i a ha
      split at h
      · exact Option.noConfusion h
      · rename_i b hb
        simp only [Option.some.injEq, Prod.mk.injEq] at h
        obtain ⟨hs2, hevs⟩ := h
        subst hs2
        have hamem : a ∈ ASK_TYPES := List.getElem?_mem ha
        have hbfil := List.getElem?_mem hb
        have hbmem : b ∈ ASK_TYPES := List.mem_of_mem_filter hbfil
        have hba : b ≠ a := by
          have := List.of_mem_filter hbfil
          simpa using this
        have hab : a ≠ b := fun hc => hba hc.symm
        refine ⟨a, b, rfl, rfl, hamem, hbmem, hab, rfl, ?_, ?_⟩
        · revert hab
          cases a <;> cases b <;> intro hab <;>
            first
            | exact absurd rfl hab
            | decide
        · revert hab
          cases a <;> cases b <;> intro hab <;>
            first
            | exact absurd rfl hab
            | decide

theorem askAnswer_distinct_instruction_witness :
    ∃ p : Engine × List Ev,
      nextQuestion defaultSettings qc0 true engC8 = some p
      ∧ ∃ a b, p.1.askType = some a ∧ p.1.answerType = some b
        ∧ a ∈ ASK_TYPES ∧ b ∈ ASK_TYPES ∧ a ≠ b
        ∧ p.1.instruction = instructionText a b
        ∧ instructionText a b = sixPairLookup a b := by
  obtain ⟨p, hp⟩ := Option.isSome_iff_exists.mp
    (by decide : (nextQuestion defaultSettings qc0 true engC8).isSome = true)
  obtain ⟨a, b, h1, h2, h3, h4, h5, h6, h7, h8⟩ :=
    askAnswer_distinct_instruction defaultSettings qc0 true engC8 p.1 p.2 hp
  exact ⟨p, hp, a, b, h1, h2, h3, h4, h5, h6, h7⟩
